import Mathlib

/-!
Verification of the DHT routing table and message codec.

Shallow embedding of the repository's three modules:
* `table.rs`   — XOR distance metric, k-bucket routing table, split/compaction;
* `messages.rs` — bencode message model (queries, responses, contact records);
* `main.rs`    — the event-loop send path (modelled as its decision function).

Node identifiers are 20-byte values; we model bytes as `Nat` (each < 256 in
practice) and a `NodeId` as the list of its 20 bytes, most significant first.
-/

set_option autoImplicit false

namespace Dht

/-- `NODE_ID_LEN` from `messages.rs`: a node id is 20 bytes (160 bits). -/
def NODE_ID_LEN : Nat := 20

/-- The 160-bit space of BitTorrent infohashes, as its list of 20 bytes. -/
abbrev NodeId := List Nat

/-- `NodeId::bit` from `messages.rs`: bit `index` of the id, where bit 0 is the
most significant bit of byte 0.  The source masks the byte `index / 8` with
`1 << (7 - index % 8)` and tests for nonzero. -/
def NodeId.bit (id : NodeId) (index : Nat) : Bool :=
  let mask := 1 <<< (7 - index % 8)
  (id.getD (index / 8) 0) &&& mask != 0

/-- `Distance::between` from `table.rs`: byte-wise XOR of the two ids. -/
def Distance.between (a b : NodeId) : List Nat :=
  List.zipWith (fun x y => x ^^^ y) a b

/-- Inner loop of `Distance::count_zeros`: starting from `mask` (the source
initialises it to `0xf0`), test `mask & bits` for up to `fuel` iterations,
halving the mask each time; returns the number of iterations before the first
hit, or `none` if the loop runs out. -/
def czInner (bits : Nat) : Nat → Nat → Option Nat
  | _, 0 => none
  | mask, fuel + 1 =>
    if mask &&& bits != 0 then some 0
    else (czInner bits (mask >>> 1) fuel).map (· + 1)

/-- Outer loop of `Distance::count_zeros`: scan the bytes from the most
significant; a zero byte `continue`s, and in the first nonzero byte the inner
loop determines the extra zero count.  Falls off the end with
`NODE_ID_LEN * 8`. -/
def czOuter : List Nat → Nat → Nat
  | [], _ => NODE_ID_LEN * 8
  | bits :: rest, i =>
    if bits = 0 then czOuter rest (i + 1)
    else
      match czInner bits 0xf0 8 with
      | some n => i * 8 + n
      | none => czOuter rest (i + 1)

/-- `Distance::count_zeros` from `table.rs`. -/
def Distance.count_zeros (d : List Nat) : Nat := czOuter d 0

/-- `MAX_BUCKETS` from `table.rs`. -/
def MAX_BUCKETS : Nat := NODE_ID_LEN * 8 + 1

/-- `K` from `table.rs`: number of slots per bucket. -/
def K : Nat := 8

/-- `NodeState` from `table.rs`. -/
inductive NodeState where
  | Pinging
  | Good
deriving DecidableEq, Repr

/-- `Slot` from `table.rs`: a bucket slot is empty or holds a node. -/
inductive Slot where
  | Empty
  | Node (id : NodeId) (state : NodeState)
deriving DecidableEq, Repr

/-- `Slot::is_empty` from `table.rs`. -/
def Slot.is_empty : Slot → Bool
  | .Empty => true
  | .Node _ _ => false

/-- A bucket is its array of `K` slots, modelled as a list of length `K`. -/
abbrev Bucket := List Slot

/-- `Bucket::new` from `table.rs`. -/
def Bucket.new : Bucket := List.replicate K Slot.Empty

/-- The per-slot test inside `Bucket::locate`: a slot matches when it is empty
or already holds `id`. -/
def slotMatches (id : NodeId) : Slot → Bool
  | .Empty => true
  | .Node slot_id _ => id = slot_id

/-- The scan of `Bucket::locate`, carrying the running index. -/
def locateAux (id : NodeId) : List Slot → Nat → Option Nat
  | [], _ => none
  | s :: rest, i => if slotMatches id s then some i else locateAux id rest (i + 1)

/-- `Bucket::locate` from `table.rs`: index of the first slot that is empty or
holds `id`. -/
def Bucket.locate (slots : Bucket) (id : NodeId) : Option Nat :=
  locateAux id slots 0

/-- `Table` from `table.rs`. -/
structure Table where
  buckets : List Bucket
  id : NodeId
deriving DecidableEq, Repr

/-- `Table::new` from `table.rs`: one empty bucket. -/
def Table.new (id : NodeId) : Table :=
  { buckets := [Bucket.new], id := id }

/-- State threaded through `Table::spill`'s scan: the source bucket's slots
(being mutated in place), the nodes spilled so far (`dest_slot` is their
count), and the tracked lowest-index gap. -/
structure SpillState where
  slots : List Slot
  dest : List Slot
  gap : Option Nat
deriving DecidableEq, Repr

/-- The gap re-scan inside `Table::spill`: first index in `[lo, lo + fuel)`
whose slot is empty.  Models `for i in g+1..src { if before[i].is_empty()
{ gap = Some(i); break } }`. -/
def firstEmptyIn (slots : List Slot) : Nat → Nat → Option Nat
  | _, 0 => none
  | lo, fuel + 1 =>
    if (slots.getD lo Slot.Empty).is_empty then some lo
    else firstEmptyIn slots (lo + 1) fuel

/-- Models `if gap.is_none() { gap = Some(src) }` from `Table::spill`. -/
def gapOrElse : Option Nat → Nat → Option Nat
  | some g, _ => some g
  | none, src => some src

/-- Models `gap = Some(src)` followed by the re-scan `for i in g+1..src`
in `Table::spill`. -/
def gapRescan (slots : List Slot) (lo fuel src : Nat) : Option Nat :=
  match firstEmptyIn slots lo fuel with
  | some i => some i
  | none => some src

/-- One iteration of `Table::spill`'s scan at source index `src`: an empty
slot records the gap; a node whose bit `bit_index` equals `our_bit` is moved
to the destination bucket and its slot cleared; any other node is swapped
down into the gap (when one exists) and the gap is re-scanned. -/
def spillStep (our_bit : Bool) (bit_index src : Nat) (st : SpillState) : SpillState :=
  match st.slots.getD src Slot.Empty with
  | Slot.Empty =>
    { st with gap := gapOrElse st.gap src }
  | Slot.Node id ns =>
    if our_bit = id.bit bit_index then
      { slots := st.slots.set src Slot.Empty,
        dest := st.dest ++ [Slot.Node id ns],
        gap := gapOrElse st.gap src }
    else
      match st.gap with
      | none => st
      | some g =>
        let slots' := (st.slots.set g (Slot.Node id ns)).set src (st.slots.getD g Slot.Empty)
        { slots := slots', dest := st.dest,
          gap := gapRescan slots' (g + 1) (src - (g + 1)) src }

/-- `Table::spill`'s `for src in 0..K` loop. -/
def spillLoop (our_bit : Bool) (bit_index : Nat) : Nat → Nat → SpillState → SpillState
  | 0, _, st => st
  | fuel + 1, src, st =>
    spillLoop our_bit bit_index fuel (src + 1) (spillStep our_bit bit_index src st)

/-- `Table::spill` from `table.rs`: scan the last bucket, move matching nodes
into a fresh bucket while compacting the old one, push the new bucket, and
return the next open slot in it (as a bucket/slot index pair). -/
def Table.spill (t : Table) : Table × Option (Nat × Nat) :=
  let n := t.buckets.length
  let bit_index := n - 1
  let our_bit := t.id.bit bit_index
  let st := spillLoop our_bit bit_index K 0
    { slots := t.buckets.getD bit_index [], dest := [], gap := none }
  let dest_bucket := st.dest ++ List.replicate (K - st.dest.length) Slot.Empty
  let buckets' := (t.buckets.set bit_index st.slots) ++ [dest_bucket]
  (⟨buckets', t.id⟩,
    if st.dest.length < K then some (n, st.dest.length) else none)

/-- `Table::allocate` from `table.rs`: returns the (possibly spilled) table
together with the bucket/slot position of the allocated slot, if any. -/
def Table.allocate (t : Table) (node_id : NodeId) : Table × Option (Nat × Nat) :=
  let distance := Distance.between t.id node_id
  let common_bits := Distance.count_zeros distance
  let n := t.buckets.length
  match (if common_bits < n then Bucket.locate (t.buckets.getD common_bits []) node_id
         else none) with
  | some i => (t, some (common_bits, i))
  | none =>
    if common_bits ≥ n ∧ n < MAX_BUCKETS then t.spill
    else (t, none)

/-- Overwrite slot `si` of bucket `bi`. -/
def Table.writeSlot (t : Table) (bi si : Nat) (s : Slot) : Table :=
  { t with buckets := t.buckets.set bi ((t.buckets.getD bi []).set si s) }

/-- The engine's use of `allocate` (per `ServerHandler` handling in the spec's
§4.4): allocate a slot for `id` and, when the returned slot is empty, write
`Slot.Node id st` into it; a non-empty returned slot is left alone. -/
def Table.insertNode (t : Table) (id : NodeId) (st : NodeState) : Table :=
  match t.allocate id with
  | (t', some (bi, si)) =>
    if (t'.buckets.getD bi []).getD si Slot.Empty = Slot.Empty
    then t'.writeSlot bi si (Slot.Node id st)
    else t'
  | (t', none) => t'

/-- Leading zero bits of one byte (bit 7 is the most significant). -/
def byteLZ (b : Nat) : Nat :=
  if b &&& 128 != 0 then 0
  else if b &&& 64 != 0 then 1
  else if b &&& 32 != 0 then 2
  else if b &&& 16 != 0 then 3
  else if b &&& 8 != 0 then 4
  else if b &&& 4 != 0 then 5
  else if b &&& 2 != 0 then 6
  else if b &&& 1 != 0 then 7
  else 8

/-- Modelled from the spec: `sharedPrefixLength(distance)` is the count of
leading zero bits of the distance's big-endian bit string — it "scans bytes
from the most significant, and within the first non-zero byte counts leading
zero bits, returning 160 only for an all-zero distance". -/
def specSharedPrefixLength : List Nat → Nat
  | [] => 0
  | b :: rest => if b = 0 then 8 + specSharedPrefixLength rest else byteLZ b

/-- Slots that `Table::spill` moves into the new bucket: occupied, and the
node's bit at `bit_index` equals the local id's. -/
def isMover (our_bit : Bool) (bit_index : Nat) : Slot → Bool
  | .Empty => false
  | .Node id _ => decide (our_bit = id.bit bit_index)

/-- Slots that `Table::spill` keeps in the old bucket: occupied, and the
node's bit at `bit_index` differs from the local id's. -/
def isStayer (our_bit : Bool) (bit_index : Nat) : Slot → Bool
  | .Empty => false
  | .Node id _ => decide (¬ our_bit = id.bit bit_index)

/-- The gap tracked by `Table::spill` when the compacted prefix has `n`
occupied slots followed by `k` empty ones: `none` until an empty slot has been
seen, then the index of the lowest empty slot. -/
def gapOf (n k : Nat) : Option Nat := if k = 0 then none else some n

/-! ## Message model (`messages.rs`)

The generic bencode value tree (the external `bencode` crate's `Bencode`
type), with dictionaries as key-sorted association lists (`BTreeMap`). -/

inductive Bencode where
  | ByteString (bytes : List Nat)
  | Number (n : Int)
  /-- The crate's `Bencode::List` constructor; named `ListV` because `List`
  would shadow the list type inside this declaration. -/
  | ListV (items : List Bencode)
  | Dict (entries : List (List Nat × Bencode))

/-- `bencode::DictMap`: the entry list of a `BTreeMap<ByteString, Bencode>`. -/
abbrev DictMap := List (List Nat × Bencode)

/-- `DecodeError` from `messages.rs`. -/
inductive DecodeError where
  | KeyMissing (key : List Nat)
  | InvalidAddress (addr : Nat × Nat × Nat × Nat)
  | InvalidDiscrim
  | OutOfRange
  | WrongDiscrim
  | WrongLength
  | WrongType
deriving DecidableEq, Repr

/-- `DecodeResult` from `messages.rs`. -/
abbrev DecodeResult (α : Type) := Except DecodeError α

/-- `Result::is_ok` on a decode result. -/
def isOkB {α : Type} : DecodeResult α → Bool
  | .ok _ => true
  | .error _ => false

/-- `BencodeExt::bytes`. -/
def Bencode.bytes : Bencode → DecodeResult (List Nat)
  | .ByteString v => .ok v
  | _ => .error .WrongType

/-- `BencodeExt::dict`. -/
def Bencode.dict : Bencode → DecodeResult DictMap
  | .Dict m => .ok m
  | _ => .error .WrongType

/-- `BTreeMap::get` by key equality. -/
def dictLookup : DictMap → List Nat → Option Bencode
  | [], _ => none
  | (k, v) :: rest, key => if k = key then some v else dictLookup rest key

/-- `DictExt::lookup`: a missing key is a `KeyMissing` error. -/
def lookup (d : DictMap) (key : List Nat) : DecodeResult Bencode :=
  match dictLookup d key with
  | some v => .ok v
  | none => .error (.KeyMissing key)

/-- Lexicographic byte-string order (the `Ord` a `BTreeMap` keys on). -/
def bytesLt : List Nat → List Nat → Bool
  | [], [] => false
  | [], _ :: _ => true
  | _ :: _, [] => false
  | a :: as, b :: bs => if a < b then true else if b < a then false else bytesLt as bs

/-- `BTreeMap::insert`, keeping entries sorted by key. -/
def dictInsert (k : List Nat) (v : Bencode) : DictMap → DictMap
  | [] => [(k, v)]
  | (k', v') :: rest =>
    if k = k' then (k, v) :: rest
    else if bytesLt k k' then (k, v) :: (k', v') :: rest
    else (k', v') :: dictInsert k v rest

/-- Key `"a"`. -/
def keyA : List Nat := [97]

/-- Key `"q"`. -/
def keyQ : List Nat := [113]

/-- Key `"r"`. -/
def keyR : List Nat := [114]

/-- Key `"t"`. -/
def keyT : List Nat := [116]

/-- Key `"y"`. -/
def keyY : List Nat := [121]

/-- Key `"id"`. -/
def keyId : List Nat := [105, 100]

/-- Key `"target"`. -/
def keyTarget : List Nat := [116, 97, 114, 103, 101, 116]

/-- Key `"nodes"`. -/
def keyNodes : List Nat := [110, 111, 100, 101, 115]

/-- Key `"token"`. -/
def keyToken : List Nat := [116, 111, 107, 101, 110]

/-- The byte string `"q"`. -/
def strQ : List Nat := [113]

/-- The byte string `"r"`. -/
def strR : List Nat := [114]

/-- The byte string `"ping"`. -/
def strPing : List Nat := [112, 105, 110, 103]

/-- The byte string `"find_node"`. -/
def strFindNode : List Nat := [102, 105, 110, 100, 95, 110, 111, 100, 101]

/-- `NodeId::from_slice` from `messages.rs`. -/
def NodeId.from_slice (bytes : List Nat) : DecodeResult NodeId :=
  if bytes.length = NODE_ID_LEN then .ok bytes else .error .WrongLength

/-- `impl FromBencode for NodeId`. -/
def NodeId.from_bencode (b : Bencode) : DecodeResult NodeId :=
  match b.bytes with
  | .ok bs => NodeId.from_slice bs
  | .error e => .error e

/-- `impl ToBencode for NodeId`. -/
def NodeId.to_bencode (id : NodeId) : Bencode := .ByteString id

/-- `TxId` from `messages.rs`: 2-byte short form or arbitrary byte form. -/
inductive TxId where
  | Short (b0 b1 : Nat)
  | Arbitrary (bytes : List Nat)
deriving DecidableEq, Repr

/-- `TxId::as_slice`. -/
def TxId.as_slice : TxId → List Nat
  | .Short b0 b1 => [b0, b1]
  | .Arbitrary bs => bs

/-- `impl FromBencode for TxId`: two bytes decode to the short form. -/
def TxId.from_bencode (b : Bencode) : DecodeResult TxId :=
  match b.bytes with
  | .error e => .error e
  | .ok bytes =>
    if bytes.length = 2 then .ok (.Short (bytes.getD 0 0) (bytes.getD 1 0))
    else .ok (.Arbitrary bytes)

/-- `impl PartialEq for TxId`: equality of the raw byte content. -/
def TxId.beq (a b : TxId) : Bool := decide (a.as_slice = b.as_slice)

/-- `impl ToBencode for TxId`. -/
def TxId.to_bencode (t : TxId) : Bencode := .ByteString t.as_slice

/-- The form a byte string decodes to: short when exactly two bytes. -/
def txDecode (bytes : List Nat) : TxId :=
  if bytes.length = 2 then .Short (bytes.getD 0 0) (bytes.getD 1 0)
  else .Arbitrary bytes

/-- `Query` from `messages.rs`. -/
inductive Query where
  | Ping
  | FindNode (target : NodeId)
deriving DecidableEq, Repr

/-- `FullQuery` from `messages.rs`. -/
structure FullQuery where
  query : Query
  sender_id : NodeId
  tx_id : TxId
deriving DecidableEq, Repr

/-- `impl ToBencode for FullQuery`: keys `y`, `q`, `t`, `a`, with `id` (and
`target` for find_node) inside the args dict. -/
def FullQuery.to_bencode (q : FullQuery) : Bencode :=
  let args0 := dictInsert keyId (NodeId.to_bencode q.sender_id) []
  let qt_args : List Nat × DictMap :=
    match q.query with
    | .Ping => (strPing, args0)
    | .FindNode target =>
      (strFindNode, dictInsert keyTarget (NodeId.to_bencode target) args0)
  let dict0 := dictInsert keyY (Bencode.ByteString strQ) []
  let dict1 := dictInsert keyQ (Bencode.ByteString qt_args.1) dict0
  let dict2 := dictInsert keyT (TxId.to_bencode q.tx_id) dict1
  let dict3 := dictInsert keyA (Bencode.Dict qt_args.2) dict2
  Bencode.Dict dict3

/-- `impl FromBencode for FullQuery`. -/
def FullQuery.from_bencode (b : Bencode) : DecodeResult FullQuery :=
  match b.dict with
  | .error e => .error e
  | .ok dict =>
    match lookup dict keyY with
    | .error e => .error e
    | .ok yv =>
      match yv.bytes with
      | .error e => .error e
      | .ok y =>
        if y ≠ strQ then .error .WrongDiscrim
        else
          match lookup dict keyA with
          | .error e => .error e
          | .ok av =>
            match av.dict with
            | .error e => .error e
            | .ok args =>
              match lookup args keyId with
              | .error e => .error e
              | .ok idv =>
                match NodeId.from_bencode idv with
                | .error e => .error e
                | .ok sender_id =>
                  match lookup dict keyT with
                  | .error e => .error e
                  | .ok tv =>
                    match TxId.from_bencode tv with
                    | .error e => .error e
                    | .ok tx_id =>
                      match lookup dict keyQ with
                      | .error e => .error e
                      | .ok qv =>
                        match qv.bytes with
                        | .error e => .error e
                        | .ok qname =>
                          if qname = strPing then
                            .ok ⟨Query.Ping, sender_id, tx_id⟩
                          else if qname = strFindNode then
                            match lookup args keyTarget with
                            | .error e => .error e
                            | .ok tgtv =>
                              match NodeId.from_bencode tgtv with
                              | .error e => .error e
                              | .ok target =>
                                .ok ⟨Query.FindNode target, sender_id, tx_id⟩
                          else .error .InvalidDiscrim

/-- Modelled from the spec: the standard library's `Ipv4Addr::is_private`
(10/8, 172.16/12, 192.168/16), an external collaborator of `messages.rs`. -/
def ip_is_private (a b : Nat) : Bool :=
  a = 10 || (a = 172 && (16 ≤ b && b ≤ 31)) || (a = 192 && b = 168)

/-- Modelled from the spec: the standard library's `Ipv4Addr::is_global` as it
stood for this code's era — not private, loopback (127/8), link-local
(169.254/16), broadcast (255.255.255.255), documentation (192.0.2/24,
198.51.100/24, 203.0.113/24) or unspecified (0.0.0.0). -/
def is_global (ip : Nat × Nat × Nat × Nat) : Bool :=
  let (a, b, c, d) := ip
  !(ip_is_private a b) && !(a = 127) && !(a = 169 && b = 254)
    && !(a = 255 && b = 255 && c = 255 && d = 255)
    && !((a = 192 && b = 0 && c = 2) || (a = 198 && b = 51 && c = 100)
          || (a = 203 && b = 0 && c = 113))
    && !(a = 0 && b = 0 && c = 0 && d = 0)

/-- `Peer4Info` from `messages.rs`: an IPv4 socket address. -/
structure Peer4Info where
  ip : Nat × Nat × Nat × Nat
  port : Nat
deriving DecidableEq, Repr

/-- `Peer4Info::parse`: 4 address bytes and a big-endian 2-byte port; rejects
non-global addresses and port zero. -/
def Peer4Info.parse (b : List Nat) : DecodeResult Peer4Info :=
  if b.length ≠ 6 then .error .WrongLength
  else
    let ip := (b.getD 0 0, b.getD 1 0, b.getD 2 0, b.getD 3 0)
    if ¬ is_global ip then .error (.InvalidAddress ip)
    else
      let port := (b.getD 4 0) <<< 8 + b.getD 5 0
      if port = 0 then .error .OutOfRange
      else .ok ⟨ip, port⟩

/-- `Node4Info` from `messages.rs`. -/
structure Node4Info where
  id : NodeId
  peer : Peer4Info
deriving DecidableEq, Repr

/-- `NODE4_LEN` from `messages.rs`. -/
def NODE4_LEN : Nat := NODE_ID_LEN + 6

/-- `Node4Info::parse`: a 26-byte contact record. -/
def Node4Info.parse (bytes : List Nat) : DecodeResult Node4Info :=
  if bytes.length = NODE4_LEN then
    match NodeId.from_slice (bytes.take NODE_ID_LEN) with
    | .error e => .error e
    | .ok id =>
      match Peer4Info.parse (bytes.drop NODE_ID_LEN) with
      | .error e => .error e
      | .ok peer => .ok ⟨id, peer⟩
  else .error .WrongLength

/-- `bytes.chunks(NODE4_LEN)`: successive 26-byte chunks (the last may be
shorter). -/
def chunks26 : List Nat → List (List Nat)
  | [] => []
  | x :: xs => (x :: xs).take NODE4_LEN :: chunks26 ((x :: xs).drop NODE4_LEN)
termination_by l => l.length
decreasing_by simp [NODE4_LEN, NODE_ID_LEN]; omega

/-- The chunk iteration of `Node4Info::parse_list` (the `for entry in
bytes.chunks(NODE4_LEN)` loop, aborting on the first error). -/
def parseChunksGo : List (List Nat) → DecodeResult (List Node4Info)
  | [] => .ok []
  | c :: rest =>
    match Node4Info.parse c with
    | .error e => .error e
    | .ok n =>
      match parseChunksGo rest with
      | .error e => .error e
      | .ok ns => .ok (n :: ns)

/-- `Node4Info::parse_list`: the byte-string length must be an exact multiple
of 26, and every chunk must parse. -/
def Node4Info.parse_list (bytes : List Nat) : DecodeResult (List Node4Info) :=
  if bytes.length % NODE4_LEN ≠ 0 then .error .WrongLength
  else parseChunksGo (chunks26 bytes)

/-- `Response` from `messages.rs`. -/
inductive Response where
  | Pong
  | FoundNodes (nodes4 : List Node4Info)
deriving DecidableEq, Repr

/-- `FullResponse` from `messages.rs`. -/
structure FullResponse where
  response : Response
  sender_id : NodeId
  tx_id : TxId
deriving DecidableEq, Repr

/-- Decode outcome for `FullResponse::from_bencode`, whose `token` branch
`panic!`s rather than returning. -/
inductive RespDecode (α : Type) where
  | ok (a : α)
  | err (e : DecodeError)
  | panicked
deriving DecidableEq, Repr

/-- The struct literal at the end of `FullResponse::from_bencode`: with the
response variant already chosen, decode `r.id` and then `t`. -/
def respFinish (dict args : DictMap) (response : Response) : RespDecode FullResponse :=
  match lookup args keyId with
  | .error e => .err e
  | .ok idv =>
    match NodeId.from_bencode idv with
    | .error e => .err e
    | .ok sender =>
      match lookup dict keyT with
      | .error e => .err e
      | .ok tv =>
        match TxId.from_bencode tv with
        | .error e => .err e
        | .ok tx => .ok ⟨response, sender, tx⟩

/-- `impl FromBencode for FullResponse`: `y` must be `"r"`; a `token` key in
the args is the unimplemented get_peers path (a `panic!`); a `nodes`
byte-string selects `FoundNodes` via `parse_list`; otherwise `Pong`. -/
def FullResponse.from_bencode (b : Bencode) : RespDecode FullResponse :=
  match b.dict with
  | .error e => .err e
  | .ok dict =>
    match lookup dict keyY with
    | .error e => .err e
    | .ok yv =>
      match yv.bytes with
      | .error e => .err e
      | .ok y =>
        if y ≠ strR then .err .WrongDiscrim
        else
          match lookup dict keyR with
          | .error e => .err e
          | .ok rv =>
            match rv.dict with
            | .error e => .err e
            | .ok args =>
              match lookup args keyToken with
              | .ok _ => .panicked
              | .error _ =>
                match lookup args keyNodes with
                | .ok nodesVal =>
                  match nodesVal.bytes with
                  | .error e => .err e
                  | .ok nbytes =>
                    match Node4Info.parse_list nbytes with
                    | .error e => .err e
                    | .ok nodes => respFinish dict args (Response.FoundNodes nodes)
                | .error _ => respFinish dict args Response.Pong

/-! ## The send path (`main.rs`) -/

/-- Outcome of `ServerHandler::send` after serialisation. -/
inductive SendOutcome where
  | ok
  | errBrokenPipe
  | panicked
deriving DecidableEq, Repr

/-- Models the tail of `ServerHandler::send` in `main.rs` as a function of the
socket's reported result (`Ok(Some n)` ↦ `some n`, `Ok(None)` ↦ `none`) and
the serialised length: `Some(n_sent)` asserts `n_sent == bytes.len()` (a
panic on failure) and only then arms the timeout and returns `Ok`; `None`
returns a `BrokenPipe` error.  The second component records whether the
timeout was armed. -/
def sendStep (sendResult : Option Nat) (len : Nat) : SendOutcome × Bool :=
  match sendResult with
  | some n_sent => if n_sent = len then (.ok, true) else (.panicked, false)
  | none => (.errBrokenPipe, false)

/-- A bucket is dense when no occupied slot follows an empty one: dropping the
leading occupied slots leaves only empty slots. -/
def denseB (slots : List Slot) : Bool :=
  (slots.dropWhile (fun s => ! s.is_empty)).all Slot.is_empty

/-! Concrete ids used to exercise the table: a local id of all zero bytes, a
family of far ids whose distance has its first set bit in byte 3, and an id
whose distance has its first set bit at the bottom of byte 0. -/

/-- All-zero local id. -/
def cLocal : NodeId := List.replicate 20 0

/-- Far id number `k`: bytes `[0,0,0,1, 0 …, k]`, distance to `cLocal` has 31
leading zero bits (`count_zeros` reports 28). -/
def cFar (k : Nat) : NodeId := [0, 0, 0, 1] ++ List.replicate 15 0 ++ [k]

/-- Id `[1, 0, …]`: its distance to `cLocal` has 7 leading zero bits, but
`count_zeros` reports 4. -/
def cX : NodeId := 1 :: List.replicate 19 0

/-- Table reached from `Table.new cLocal` by six engine-style insertions: five
far nodes (each forcing one split) and then `cX`. -/
def tC2 : Table :=
  let t1 := (Table.new cLocal).insertNode (cFar 1) .Good
  let t2 := t1.insertNode (cFar 2) .Good
  let t3 := t2.insertNode (cFar 3) .Good
  let t4 := t3.insertNode (cFar 4) .Good
  let t5 := t4.insertNode (cFar 5) .Good
  t5.insertNode cX .Good

/-- Table reached from `Table.new cLocal` by one insertion of `cFar 1`. -/
def tC3 : Table := (Table.new cLocal).insertNode (cFar 1) .Good

/-- Id `[0x80, 0, …]`: distance to `cLocal` has 0 leading zero bits, so it
lands in bucket 0 and its bit 0 differs from `cLocal`'s. -/
def cY : NodeId := 128 :: List.replicate 19 0

/-- One-bucket table holding `cY` (a stayer for bit 0) and `cX` (a mover for
bit 0). -/
def bC4 : Bucket :=
  [Slot.Node cY .Good, Slot.Node cX .Pinging] ++ List.replicate 6 Slot.Empty

/-- Table whose single bucket is `bC4`, with local id `cLocal`. -/
def tC4 : Table := { buckets := [bC4], id := cLocal }

/-- One-bucket table holding `cY` at slot 0. -/
def tCY : Table := (Table.new cLocal).insertNode cY .Good

/-- Args dict of a concrete find_node reply: an `id` and a single valid
26-byte contact in `nodes`. -/
def argsC6 : DictMap :=
  [(keyId, Bencode.ByteString (List.replicate 20 2)),
   (keyNodes, Bencode.ByteString (List.replicate 20 1 ++ [8, 8, 8, 8, 26, 225]))]

/-- Top-level dict of the concrete reply: `r`, `t` and `y = "r"`. -/
def dictC6 : DictMap :=
  [(keyR, Bencode.Dict argsC6), (keyT, Bencode.ByteString [65, 66]),
   (keyY, Bencode.ByteString strR)]

end Dht

namespace Dht

theorem getD_append_mid {α : Type} (p q : List α) (a d : α) (s : List α) :
    (p ++ (q ++ a :: s)).getD (p.length + q.length) d = a := by
  induction p with
  | nil =>
    induction q with
    | nil => rfl
    | cons x xs ih => simpa using ih
  | cons x xs ih => simpa [Nat.succ_add] using ih

theorem set_append_mid {α : Type} (p q : List α) (a b : α) (s : List α) :
    (p ++ (q ++ a :: s)).set (p.length + q.length) b = p ++ (q ++ b :: s) := by
  induction p with
  | nil =>
    induction q with
    | nil => rfl
    | cons x xs ih => simpa using ih
  | cons x xs ih => simpa [Nat.succ_add] using ih

theorem filter_length_partition {α : Type} (p : α → Bool) (s : List α) :
    (s.filter p).length + (s.filter (fun x => ! p x)).length = s.length := by
  induction s with
  | nil => rfl
  | cons a s ih => by_cases h : p a <;> simp [List.filter_cons, h, ← ih] <;> omega

theorem rep_cons (k : Nat) (s : List Slot) :
    List.replicate k Slot.Empty ++ Slot.Empty :: s
      = List.replicate (k + 1) Slot.Empty ++ s := by
  simp [List.replicate_succ', List.append_assoc]

theorem gapOrElse_gapOf (n k : Nat) :
    gapOrElse (gapOf n k) (n + k) = gapOf n (k + 1) := by
  cases k <;> simp [gapOf, gapOrElse]

theorem gapRescan_reps (P : List Slot) (k : Nat) (s : List Slot) :
    gapRescan (P ++ (List.replicate (k + 1) Slot.Empty ++ s)) P.length k (P.length + k)
      = some P.length := by
  cases k with
  | zero => simp [gapRescan, firstEmptyIn]
  | succ k' =>
    have hget : (P ++ (List.replicate (k' + 1 + 1) Slot.Empty ++ s)).getD P.length Slot.Empty
        = Slot.Empty := by
      simpa [List.replicate_succ] using getD_append_mid P [] Slot.Empty Slot.Empty
        (List.replicate (k' + 1) Slot.Empty ++ s)
    rw [gapRescan, firstEmptyIn, hget]
    simp [Slot.is_empty]

/-- Loop invariant of `Table::spill`'s scan, in closed form: starting from a
compacted prefix `pre` of stayers, `k` empty slots, and the unprocessed
suffix `s`, running the scan over `s` compacts the stayers of `s` onto `pre`,
appends the movers of `s` to `dest` in scan order, and leaves only empty
slots behind them. -/
theorem spillLoop_eq (oB : Bool) (bI : Nat) :
    ∀ (s pre : List Slot) (k : Nat) (dest : List Slot),
      (∀ x ∈ pre, isStayer oB bI x = true) →
      spillLoop oB bI s.length (pre.length + k)
          ⟨pre ++ (List.replicate k Slot.Empty ++ s), dest, gapOf pre.length k⟩
        = ⟨(pre ++ s.filter (isStayer oB bI))
             ++ List.replicate (k + (s.filter (fun x => ! isStayer oB bI x)).length)
                 Slot.Empty,
           dest ++ s.filter (isMover oB bI),
           gapOf (pre.length + (s.filter (isStayer oB bI)).length)
                 (k + (s.filter (fun x => ! isStayer oB bI x)).length)⟩ := by
  intro s
  induction s with
  | nil => intro pre k dest _; simp [spillLoop]
  | cons a s ih =>
    intro pre k dest hpre
    have hget : (pre ++ (List.replicate k Slot.Empty ++ a :: s)).getD (pre.length + k)
        Slot.Empty = a := by
      simpa using getD_append_mid pre (List.replicate k Slot.Empty) a Slot.Empty s
    rw [List.length_cons, spillLoop]
    cases a with
    | Empty =>
      have hstep : spillStep oB bI (pre.length + k)
          ⟨pre ++ (List.replicate k Slot.Empty ++ Slot.Empty :: s), dest, gapOf pre.length k⟩
          = ⟨pre ++ (List.replicate (k + 1) Slot.Empty ++ s), dest,
             gapOf pre.length (k + 1)⟩ := by
        simp only [spillStep, hget]
        rw [gapOrElse_gapOf, rep_cons]
      rw [hstep]
      have harg : pre.length + k + 1 = pre.length + (k + 1) := rfl
      rw [harg, ih pre (k + 1) dest hpre]
      simp [List.filter_cons, isStayer, isMover, Nat.add_assoc, Nat.add_comm,
        Nat.add_left_comm]
    | Node id ns =>
      by_cases h : oB = id.bit bI
      · have hset : (pre ++ (List.replicate k Slot.Empty ++ Slot.Node id ns :: s)).set
            (pre.length + k) Slot.Empty
            = pre ++ (List.replicate (k + 1) Slot.Empty ++ s) := by
          simpa [rep_cons] using set_append_mid pre (List.replicate k Slot.Empty)
            (Slot.Node id ns) Slot.Empty s
        have hstep : spillStep oB bI (pre.length + k)
            ⟨pre ++ (List.replicate k Slot.Empty ++ Slot.Node id ns :: s), dest,
             gapOf pre.length k⟩
            = ⟨pre ++ (List.replicate (k + 1) Slot.Empty ++ s),
               dest ++ [Slot.Node id ns], gapOf pre.length (k + 1)⟩ := by
          simp only [spillStep, hget]
          rw [if_pos h, hset, gapOrElse_gapOf]
        rw [hstep]
        have harg : pre.length + k + 1 = pre.length + (k + 1) := rfl
        rw [harg, ih pre (k + 1) (dest ++ [Slot.Node id ns]) hpre]
        simp [List.filter_cons, isStayer, isMover, h, Nat.add_assoc, Nat.add_comm,
          Nat.add_left_comm, List.append_assoc]
      · have hpre' : ∀ x ∈ pre ++ [Slot.Node id ns], isStayer oB bI x = true := by
          intro x hx
          rcases List.mem_append.1 hx with hx | hx
          · exact hpre x hx
          · simp only [List.mem_singleton] at hx
            subst hx
            simp [isStayer, h]
        cases k with
        | zero =>
          have hgap0 : gapOf pre.length 0 = none := rfl
          have hstep : spillStep oB bI (pre.length + 0)
              ⟨pre ++ (List.replicate 0 Slot.Empty ++ Slot.Node id ns :: s), dest,
               gapOf pre.length 0⟩
              = ⟨pre ++ (List.replicate 0 Slot.Empty ++ Slot.Node id ns :: s), dest,
                 gapOf pre.length 0⟩ := by
            simp only [spillStep, hget]
            rw [if_neg h]
            simp only [hgap0]
          rw [hstep]
          have hshape : pre ++ (List.replicate 0 Slot.Empty ++ Slot.Node id ns :: s)
              = (pre ++ [Slot.Node id ns]) ++ (List.replicate 0 Slot.Empty ++ s) := by
            simp
          have harg : pre.length + 0 + 1 = (pre ++ [Slot.Node id ns]).length + 0 := by
            simp
          have hgap : gapOf pre.length 0 = gapOf (pre ++ [Slot.Node id ns]).length 0 := by
            simp [gapOf]
          rw [hshape, harg, hgap, ih (pre ++ [Slot.Node id ns]) 0 dest hpre']
          simp [List.filter_cons, isStayer, isMover, h, Nat.add_assoc, Nat.add_comm,
            Nat.add_left_comm, List.append_assoc]
        | succ k' =>
          have hgetg : (pre ++ (List.replicate (k' + 1) Slot.Empty
                ++ Slot.Node id ns :: s)).getD pre.length Slot.Empty = Slot.Empty := by
            simpa [List.replicate_succ] using getD_append_mid pre [] Slot.Empty Slot.Empty
              (List.replicate k' Slot.Empty ++ Slot.Node id ns :: s)
          have hset1 : (pre ++ (List.replicate (k' + 1) Slot.Empty
                ++ Slot.Node id ns :: s)).set pre.length (Slot.Node id ns)
              = pre ++ (Slot.Node id ns
                  :: (List.replicate k' Slot.Empty ++ Slot.Node id ns :: s)) := by
            simpa [List.replicate_succ] using set_append_mid pre [] Slot.Empty
              (Slot.Node id ns) (List.replicate k' Slot.Empty ++ Slot.Node id ns :: s)
          have hset2 : (pre ++ (Slot.Node id ns
                :: (List.replicate k' Slot.Empty ++ Slot.Node id ns :: s))).set
              (pre.length + (k' + 1)) Slot.Empty
              = (pre ++ [Slot.Node id ns]) ++ (List.replicate (k' + 1) Slot.Empty ++ s) := by
            have hs := set_append_mid (pre ++ [Slot.Node id ns])
              (List.replicate k' Slot.Empty) (Slot.Node id ns) Slot.Empty s
            simp only [List.length_append, List.length_replicate, List.length_cons,
              List.length_nil] at hs
            have hn : pre.length + 1 + k' = pre.length + (k' + 1) := by omega
            rw [hn] at hs
            simpa [List.append_assoc, rep_cons] using hs
          have hres := gapRescan_reps (pre ++ [Slot.Node id ns]) k' s
          simp only [List.length_append, List.length_cons, List.length_nil] at hres
          have hn1 : pre.length + 1 + k' = pre.length + (k' + 1) := by omega
          rw [hn1] at hres
          have hsub : pre.length + (k' + 1) - (pre.length + 1) = k' := by omega
          have hstep : spillStep oB bI (pre.length + (k' + 1))
              ⟨pre ++ (List.replicate (k' + 1) Slot.Empty ++ Slot.Node id ns :: s), dest,
               gapOf pre.length (k' + 1)⟩
              = ⟨(pre ++ [Slot.Node id ns]) ++ (List.replicate (k' + 1) Slot.Empty ++ s),
                 dest, some (pre.length + 1)⟩ := by
            have hgapS : gapOf pre.length (k' + 1) = some pre.length := rfl
            simp only [spillStep, hget]
            rw [if_neg h]
            simp only [hgapS]
            rw [hgetg, hset1, hset2, hsub, hres]
          rw [hstep]
          have harg : pre.length + (k' + 1) + 1 = (pre ++ [Slot.Node id ns]).length
              + (k' + 1) := by
            simp
            omega
          have hgap : (some (pre.length + 1) : Option Nat)
              = gapOf (pre ++ [Slot.Node id ns]).length (k' + 1) := by
            simp [gapOf]
          rw [harg, hgap, ih (pre ++ [Slot.Node id ns]) (k' + 1) dest hpre']
          simp [List.filter_cons, isStayer, isMover, h, Nat.add_assoc, Nat.add_comm,
            Nat.add_left_comm, List.append_assoc]


theorem denseB_of_shape (stay : List Slot) (m : Nat)
    (hst : ∀ x ∈ stay, x.is_empty = false) :
    denseB (stay ++ List.replicate m Slot.Empty) = true := by
  induction stay with
  | nil =>
    cases m with
    | zero => rfl
    | succ m' =>
      simp [denseB, List.dropWhile, Slot.is_empty, List.all_eq_true, List.mem_replicate]
  | cons x stay ih =>
    have hx : x.is_empty = false := hst x (List.mem_cons_self x stay)
    have ih' := ih fun y hy => hst y (List.mem_cons_of_mem x hy)
    simpa [denseB, List.dropWhile, hx] using ih'

theorem stayer_not_empty (oB : Bool) (bI : Nat) (x : Slot)
    (hx : isStayer oB bI x = true) : x.is_empty = false := by
  cases x with
  | Empty => simp [isStayer] at hx
  | Node id ns => rfl

/-- Closed form of `Table.spill` on a table whose last bucket is `L`: the old
bucket keeps the stayers (compacted, in order), the appended bucket receives
the movers in scan order, and the returned slot is the next free slot of the
new bucket. -/
theorem Table.spill_eq (t : Table) (init : List Bucket) (L : Bucket)
    (hb : t.buckets = init ++ [L]) (hK : L.length = K) :
    t.spill =
      (⟨(init ++ [L.filter (isStayer (t.id.bit init.length) init.length)
            ++ List.replicate
                (K - (L.filter (isStayer (t.id.bit init.length) init.length)).length)
                Slot.Empty])
          ++ [L.filter (isMover (t.id.bit init.length) init.length)
            ++ List.replicate
                (K - (L.filter (isMover (t.id.bit init.length) init.length)).length)
                Slot.Empty], t.id⟩,
        if (L.filter (isMover (t.id.bit init.length) init.length)).length < K
        then some (init.length + 1,
          (L.filter (isMover (t.id.bit init.length) init.length)).length)
        else none) := by
  have hn : t.buckets.length = init.length + 1 := by simp [hb]
  have hbit : t.buckets.length - 1 = init.length := by omega
  have hgetL : t.buckets.getD init.length [] = L := by
    rw [hb]
    simpa using getD_append_mid init [] L [] []
  have hloop := spillLoop_eq (t.id.bit init.length) init.length L [] 0 [] (by simp)
  simp only [List.length_nil, List.replicate_zero, List.nil_append, Nat.zero_add,
    List.append_nil] at hloop
  have hgap00 : gapOf 0 0 = none := rfl
  rw [hgap00] at hloop
  have hpart := filter_length_partition (isStayer (t.id.bit init.length) init.length) L
  have hcnt : (L.filter (fun x => ! isStayer (t.id.bit init.length) init.length x)).length
      = K - (L.filter (isStayer (t.id.bit init.length) init.length)).length := by
    omega
  rw [hcnt, hK] at hloop
  have hset : (t.buckets.set init.length
        (L.filter (isStayer (t.id.bit init.length) init.length)
          ++ List.replicate
              (K - (L.filter (isStayer (t.id.bit init.length) init.length)).length)
              Slot.Empty))
      = init ++ [L.filter (isStayer (t.id.bit init.length) init.length)
          ++ List.replicate
              (K - (L.filter (isStayer (t.id.bit init.length) init.length)).length)
              Slot.Empty] := by
    rw [hb]
    simpa using set_append_mid init [] L
      (L.filter (isStayer (t.id.bit init.length) init.length)
        ++ List.replicate
            (K - (L.filter (isStayer (t.id.bit init.length) init.length)).length)
            Slot.Empty) []
  simp only [Table.spill]
  rw [hbit, hgetL, hloop]
  simp only []
  rw [hset, hn]

theorem locateAux_finds (nid : NodeId) :
    ∀ (l : List Slot) (i : Nat),
      slotMatches nid (l.getD i Slot.Empty) = true →
      i < l.length →
      (∀ j, j < i → slotMatches nid (l.getD j Slot.Empty) = false) →
      ∀ base, locateAux nid l base = some (base + i) := by
  intro l
  induction l with
  | nil => intro i _ hlt; simp at hlt
  | cons x rest ih =>
    intro i hi hlt hbefore base
    cases i with
    | zero =>
      simp only [List.getD_cons_zero] at hi
      simp [locateAux, hi]
    | succ i' =>
      have hx : slotMatches nid x = false := by
        simpa using hbefore 0 (Nat.succ_pos i')
      have hrec := ih i' (by simpa using hi) (by simpa using hlt)
        (fun j hj => by simpa using hbefore (j + 1) (Nat.succ_lt_succ hj)) (base + 1)
      simp only [locateAux, hx, Bool.false_eq_true, if_false]
      rw [hrec]
      congr 1
      omega



/-- C1: `count_zeros` deviates from the leading-zero count the spec describes:
on the distance between `cLocal` and `cX` (first byte `0x01`) the code returns
`4` where the number of leading zero bits is `7` — the inner mask starts at
`0xf0` instead of `0x80`. -/
theorem C1_count_zeros_not_leading_zero_count :
    Distance.count_zeros (Distance.between cLocal cX) = 4 ∧
    specSharedPrefixLength (Distance.between cLocal cX) = 7 ∧
    (4 : Nat) ≠ 7 := by decide

/-- C2: the bucket invariant fails on a reachable table.  `tC2` is reached
from `Table.new` by engine-style `allocate`-then-write steps; it has six
buckets, and its bucket 4 — not the last — holds `cX`, whose
shared-prefix-length (leading-zero count of its XOR distance to the local id)
is `7`, not `4`: `allocate` indexed the bucket with the deviating
`count_zeros`. -/
theorem C2_bucket_invariant_violated :
    tC2.buckets.length = 6 ∧
    4 < tC2.buckets.length - 1 ∧
    (tC2.buckets.getD 4 []).getD 0 Slot.Empty = Slot.Node cX NodeState.Good ∧
    specSharedPrefixLength (Distance.between cLocal cX) = 7 ∧
    tC2.id = cLocal := by decide

/-- C3: `allocate` is not idempotent.  In `tC3` the id `cFar 1` occupies
bucket 1, slot 0 (placed there by the first `allocate`, which returned
position `(1, 0)`); calling `allocate` again with the same id triggers a
split and returns the fresh empty slot `(2, 1)` — a different slot, right
next to the same id which the split just moved to `(2, 0)`. -/
theorem C3_allocate_not_idempotent :
    ((Table.new cLocal).allocate (cFar 1)).2 = some (1, 0) ∧
    (tC3.buckets.getD 1 []).getD 0 Slot.Empty = Slot.Node (cFar 1) NodeState.Good ∧
    (tC3.allocate (cFar 1)).2 = some (2, 1) ∧
    ((tC3.allocate (cFar 1)).1.buckets.getD 2 []).getD 1 Slot.Empty = Slot.Empty ∧
    ((tC3.allocate (cFar 1)).1.buckets.getD 2 []).getD 0 Slot.Empty
      = Slot.Node (cFar 1) NodeState.Good := by decide

/-- C3 amended: when the id's shared-prefix index (as `count_zeros` computes
it) is below the bucket count — so no split is triggered — and the id occupies
slot `i` of its bucket with no earlier empty or matching slot, `allocate`
returns exactly that slot, leaves the table unchanged, and a second call
returns the same slot again.  (When the index reaches the bucket count,
`allocate` splits instead and hands out a fresh slot without looking for the
existing entry — see the counterexample.) -/
theorem C3_amended_allocate_idempotent_without_split (t : Table) (nid : NodeId)
    (i : Nat) (st : NodeState)
    (hcb : Distance.count_zeros (Distance.between t.id nid) < t.buckets.length)
    (hslot : (t.buckets.getD (Distance.count_zeros (Distance.between t.id nid)) []).getD i
        Slot.Empty = Slot.Node nid st)
    (hbefore : ∀ j, j < i →
      slotMatches nid ((t.buckets.getD (Distance.count_zeros (Distance.between t.id nid))
        []).getD j Slot.Empty) = false) :
    t.allocate nid = (t, some (Distance.count_zeros (Distance.between t.id nid), i)) ∧
    (t.allocate nid).1.allocate nid
      = (t, some (Distance.count_zeros (Distance.between t.id nid), i)) := by
  have hlt : i < (t.buckets.getD (Distance.count_zeros (Distance.between t.id nid))
      []).length := by
    by_contra hge
    push_neg at hge
    rw [List.getD_eq_default _ _ hge] at hslot
    exact Slot.noConfusion hslot
  have hmatch : slotMatches nid ((t.buckets.getD (Distance.count_zeros
      (Distance.between t.id nid)) []).getD i Slot.Empty) = true := by
    rw [hslot]
    simp [slotMatches]
  have hloc : Bucket.locate (t.buckets.getD (Distance.count_zeros
      (Distance.between t.id nid)) []) nid = some i := by
    simpa [Bucket.locate] using
      locateAux_finds nid _ i hmatch hlt hbefore 0
  have h1 : t.allocate nid
      = (t, some (Distance.count_zeros (Distance.between t.id nid), i)) := by
    simp only [Table.allocate]
    rw [if_pos hcb, hloc]
  have hfst : (t.allocate nid).1 = t := by rw [h1]
  exact ⟨h1, by rw [hfst]; exact h1⟩

/-- Witness for the amended C3 theorem: in the one-bucket table `tCY`, the id
`cY` occupies bucket 0, slot 0, and `allocate` returns that slot on both of
two successive calls. -/
theorem C3_amended_witness :
    tCY.allocate cY = (tCY, some (0, 0)) ∧
    (tCY.allocate cY).1.allocate cY = (tCY, some (0, 0)) := by
  have h := C3_amended_allocate_idempotent_without_split tCY cY 0 NodeState.Good
    (by decide) (by decide) (fun j hj => absurd hj (Nat.not_lt_zero j))
  simpa using h

theorem getD_drop {α : Type} (l : List α) (n i : Nat) (d : α) :
    (l.drop n).getD i d = l.getD (n + i) d := by
  induction l generalizing n with
  | nil => simp
  | cons x xs ih =>
    cases n with
    | zero => simp
    | succ n' => simpa [Nat.succ_add] using ih n'

theorem isOkB_false_iff {α : Type} (r : DecodeResult α) :
    isOkB r = false ↔ ∃ e, r = .error e := by
  cases r <;> simp [isOkB]

theorem peer4_parse_isOk (b : List Nat) (h6 : b.length = 6) :
    isOkB (Peer4Info.parse b)
      = (is_global (b.getD 0 0, b.getD 1 0, b.getD 2 0, b.getD 3 0)
         && !((b.getD 4 0) <<< 8 + b.getD 5 0 == 0)) := by
  simp only [Peer4Info.parse]
  rw [if_neg (by omega)]
  generalize (b.getD 0 0, b.getD 1 0, b.getD 2 0, b.getD 3 0) = ip
  generalize (b.getD 4 0) <<< 8 + b.getD 5 0 = port
  by_cases hg : is_global ip
  · rw [if_neg (by simpa using hg)]
    by_cases hp : port = 0
    · rw [if_pos hp]
      subst hp
      simp [isOkB, hg]
    · rw [if_neg hp]
      simp [isOkB, hg, hp]
  · rw [if_pos (by simpa using hg)]
    simp only [Bool.not_eq_true] at hg
    simp [isOkB, hg]

theorem txId_from_bytes (bs : List Nat) :
    TxId.from_bencode (Bencode.ByteString bs) = .ok (txDecode bs) := by
  by_cases h : bs.length = 2 <;> simp [TxId.from_bencode, Bencode.bytes, txDecode, h]

theorem txDecode_beq (t : TxId) : TxId.beq (txDecode t.as_slice) t = true := by
  cases t with
  | Short a b => simp [TxId.as_slice, txDecode, TxId.beq]
  | Arbitrary bs =>
    match bs with
    | [] => simp [TxId.as_slice, txDecode, TxId.beq]
    | [x] => simp [TxId.as_slice, txDecode, TxId.beq]
    | [x, y] => simp [TxId.as_slice, txDecode, TxId.beq]
    | x :: y :: z :: rest =>
      have hne : (x :: y :: z :: rest).length ≠ 2 := by simp
      simp [TxId.as_slice, txDecode, hne, TxId.beq]

/-- C7: a 26-byte contact record fails to decode exactly when its 4-byte IPv4
address (bytes 20–23) is not globally routable or its big-endian port (bytes
24–25) is zero; `is_global` here models the standard library predicate the
code calls. -/
theorem C7_contact_record_validity (bytes : List Nat) (h26 : bytes.length = 26) :
    isOkB (Node4Info.parse bytes)
      = (is_global (bytes.getD 20 0, bytes.getD 21 0, bytes.getD 22 0, bytes.getD 23 0)
         && !((bytes.getD 24 0) <<< 8 + bytes.getD 25 0 == 0)) ∧
    ((∃ e, Node4Info.parse bytes = .error e) ↔
      (is_global (bytes.getD 20 0, bytes.getD 21 0, bytes.getD 22 0,
          bytes.getD 23 0) = false
        ∨ (bytes.getD 24 0) <<< 8 + bytes.getD 25 0 = 0)) := by
  have hlen : bytes.length = NODE4_LEN := by rw [h26]; decide
  have htk : (bytes.take NODE_ID_LEN).length = NODE_ID_LEN := by
    simp [h26, NODE_ID_LEN]
  have hdr : (bytes.drop NODE_ID_LEN).length = 6 := by
    simp [h26, NODE_ID_LEN]
  have hok : isOkB (Node4Info.parse bytes)
      = isOkB (Peer4Info.parse (bytes.drop NODE_ID_LEN)) := by
    simp only [Node4Info.parse, NodeId.from_slice]
    rw [if_pos hlen, if_pos htk]
    cases Peer4Info.parse (bytes.drop NODE_ID_LEN) <;> simp [isOkB]
  have hpeer := peer4_parse_isOk (bytes.drop NODE_ID_LEN) hdr
  have hmain : isOkB (Node4Info.parse bytes)
      = (is_global (bytes.getD 20 0, bytes.getD 21 0, bytes.getD 22 0, bytes.getD 23 0)
         && !((bytes.getD 24 0) <<< 8 + bytes.getD 25 0 == 0)) := by
    rw [hok, hpeer]
    simp [getD_drop, NODE_ID_LEN]
  refine ⟨hmain, ?_⟩
  rw [← isOkB_false_iff, hmain]
  generalize is_global (bytes.getD 20 0, bytes.getD 21 0, bytes.getD 22 0,
    bytes.getD 23 0) = g
  generalize (bytes.getD 24 0) <<< 8 + bytes.getD 25 0 = port
  cases g <;> by_cases hp : port = 0 <;> simp [hp]

/-- Globally routable record with nonzero port: `Node4Info.parse` accepts the
record `id ++ 8.8.8.8:6881`, and rejects it when the address is `0.0.0.0` or
the port is zero — witnessing C7 at concrete inputs. -/
theorem C7_witness :
    isOkB (Node4Info.parse (List.replicate 20 1 ++ [8, 8, 8, 8, 26, 225])) = true ∧
    isOkB (Node4Info.parse (List.replicate 20 1 ++ [0, 0, 0, 0, 26, 225])) = false ∧
    isOkB (Node4Info.parse (List.replicate 20 1 ++ [8, 8, 8, 8, 0, 0])) = false := by
  refine ⟨?_, ?_, ?_⟩
  · rw [C7_contact_record_validity (List.replicate 20 1 ++ [8, 8, 8, 8, 26, 225])
      (by decide) |>.1]
    decide
  · rw [C7_contact_record_validity (List.replicate 20 1 ++ [0, 0, 0, 0, 26, 225])
      (by decide) |>.1]
    decide
  · rw [C7_contact_record_validity (List.replicate 20 1 ++ [8, 8, 8, 8, 0, 0])
      (by decide) |>.1]
    decide

/-- C5: decoding the bencode encoding of any constructible `FullQuery`
succeeds and yields the original query, sender and transaction id (the tx id
compared on raw bytes), with a two-byte transaction id coming back in the
short form — in particular a `Short` id decodes back unchanged. -/
theorem C5_fullquery_roundtrip (q : FullQuery)
    (hs : q.sender_id.length = NODE_ID_LEN)
    (ht : ∀ target, q.query = Query.FindNode target → target.length = NODE_ID_LEN) :
    FullQuery.from_bencode (FullQuery.to_bencode q)
      = .ok ⟨q.query, q.sender_id, txDecode q.tx_id.as_slice⟩ ∧
    TxId.beq (txDecode q.tx_id.as_slice) q.tx_id = true ∧
    (∀ a b, q.tx_id = TxId.Short a b → txDecode q.tx_id.as_slice = q.tx_id) := by
  refine ⟨?_, txDecode_beq q.tx_id, ?_⟩
  · obtain ⟨qq, sender, tx⟩ := q
    simp only at hs ht
    cases qq with
    | Ping =>
      simp [FullQuery.to_bencode, FullQuery.from_bencode, dictInsert, bytesLt,
        keyA, keyQ, keyT, keyY, keyId, strQ, strPing, strFindNode, lookup,
        dictLookup, Bencode.dict, Bencode.bytes, NodeId.from_bencode,
        NodeId.from_slice, NodeId.to_bencode, TxId.to_bencode, txId_from_bytes, hs]
    | FindNode target =>
      have htl : target.length = NODE_ID_LEN := ht target rfl
      simp [FullQuery.to_bencode, FullQuery.from_bencode, dictInsert, bytesLt,
        keyA, keyQ, keyT, keyY, keyId, keyTarget, strQ, strPing, strFindNode,
        lookup, dictLookup, Bencode.dict, Bencode.bytes, NodeId.from_bencode,
        NodeId.from_slice, NodeId.to_bencode, TxId.to_bencode, txId_from_bytes,
        hs, htl]
  · intro a b htx
    rw [htx]
    simp [TxId.as_slice, txDecode]

/-- Witness for C5 at the concrete query `FindNode` with sender `cLocal`,
target `cX` and short transaction id `AB`. -/
theorem C5_roundtrip_witness :
    FullQuery.from_bencode
        (FullQuery.to_bencode ⟨Query.FindNode cX, cLocal, TxId.Short 65 66⟩)
      = .ok ⟨Query.FindNode cX, cLocal,
          txDecode (TxId.as_slice (TxId.Short 65 66))⟩ ∧
    TxId.beq (txDecode (TxId.as_slice (TxId.Short 65 66))) (TxId.Short 65 66) = true ∧
    (∀ a b, TxId.Short 65 66 = TxId.Short a b →
      txDecode (TxId.as_slice (TxId.Short 65 66)) = TxId.Short 65 66) :=
  C5_fullquery_roundtrip ⟨Query.FindNode cX, cLocal, TxId.Short 65 66⟩
    (by decide) (fun target htg => by cases htg; decide)

/-- C8 counterexample: when the socket reports 0 of 5 bytes sent, the send
path does not return an error to its caller — it trips the
`assert_eq!(n_sent, bytes.len())` and panics (though, as the claim also says,
no timeout is armed). -/
theorem C8_partial_send_panics_not_error :
    (sendStep (some 0) 5).1 ≠ SendOutcome.errBrokenPipe ∧
    (sendStep (some 0) 5).1 = SendOutcome.panicked ∧
    (sendStep (some 0) 5).2 = false := by decide

/-- C8 amended: a timeout is armed exactly when the socket confirms the full
byte count; a short send aborts via the assertion (a panic, not an error
return) and never arms a timeout; the `None` socket result is the only path
that returns an error. -/
theorem C8_amended_send_behaviour (res : Option Nat) (len : Nat) :
    ((sendStep res len).2 = true ↔ res = some len) ∧
    ((sendStep res len).1 = SendOutcome.ok ↔ res = some len) ∧
    (sendStep none len = (SendOutcome.errBrokenPipe, false)) ∧
    (∀ n, res = some n → n ≠ len →
      sendStep res len = (SendOutcome.panicked, false)) := by
  refine ⟨?_, ?_, rfl, ?_⟩
  · cases res with
    | none => simp [sendStep]
    | some n => by_cases h : n = len <;> simp [sendStep, h]
  · cases res with
    | none => simp [sendStep]
    | some n => by_cases h : n = len <;> simp [sendStep, h]
  · intro n hres hne
    subst hres
    simp [sendStep, hne]

/-- Witness for the amended C8 theorem at a concrete short send (3 of 5
bytes). -/
theorem C8_amended_witness :
    sendStep (some 3) 5 = (SendOutcome.panicked, false) ∧
    ((sendStep (some 3) 5).2 = true ↔ (some 3 : Option Nat) = some 5) :=
  ⟨(C8_amended_send_behaviour (some 3) 5).2.2.2 3 rfl (by decide),
   (C8_amended_send_behaviour (some 3) 5).1⟩

/-- C9: transaction ids compare equal exactly when their raw byte contents
are equal, whichever form stores them; a `Short` id and an `Arbitrary` id
holding the same two bytes compare equal even though they are distinct
constructors. -/
theorem C9_txid_equality_on_bytes (t1 t2 : TxId) (a b : Nat) :
    (TxId.beq t1 t2 = true ↔ t1.as_slice = t2.as_slice) ∧
    TxId.beq (TxId.Short a b) (TxId.Arbitrary [a, b]) = true ∧
    TxId.Short a b ≠ TxId.Arbitrary [a, b] := by
  refine ⟨by simp [TxId.beq], by simp [TxId.beq, TxId.as_slice], by intro h; cases h⟩

theorem parseChunksGo_ok_iff (cs : List (List Nat)) :
    (∃ l, parseChunksGo cs = .ok l) ↔ ∀ c ∈ cs, isOkB (Node4Info.parse c) = true := by
  induction cs with
  | nil => simp [parseChunksGo]
  | cons c rest ih =>
    cases hp : Node4Info.parse c with
    | error e =>
      constructor
      · rintro ⟨l, hl⟩
        simp [parseChunksGo, hp] at hl
      · intro hall
        have hc := hall c (List.mem_cons_self c rest)
        rw [hp] at hc
        simp [isOkB] at hc
    | ok n =>
      cases hrest : parseChunksGo rest with
      | error e =>
        constructor
        · rintro ⟨l, hl⟩
          simp [parseChunksGo, hp, hrest] at hl
        · intro hall
          obtain ⟨l, hl⟩ := ih.2 fun c' hc' => hall c' (List.mem_cons_of_mem c hc')
          rw [hl] at hrest
          cases hrest
      | ok ns =>
        constructor
        · intro _ c' hc'
          rcases List.mem_cons.1 hc' with h | h
          · subst h
            rw [hp]
            rfl
          · exact ih.1 ⟨ns, hrest⟩ c' h
        · intro _
          exact ⟨n :: ns, by simp [parseChunksGo, hp, hrest]⟩

theorem parse_list_ok_iff (bytes : List Nat) :
    (∃ l, Node4Info.parse_list bytes = .ok l)
      ↔ (bytes.length % NODE4_LEN = 0
          ∧ ∀ c ∈ chunks26 bytes, isOkB (Node4Info.parse c) = true) := by
  unfold Node4Info.parse_list
  by_cases hm : bytes.length % NODE4_LEN ≠ 0
  · rw [if_pos hm]
    simp [hm]
  · rw [if_neg hm]
    push_neg at hm
    simp only [hm, true_and]
    exact parseChunksGo_ok_iff (chunks26 bytes)

/-- C6: with `y = "r"`, an args dict `r`, no `token`, a well-formed `r.id`
and a `t` byte-string: a `nodes` byte-string selects `FoundNodes`, which
succeeds exactly when the length is a multiple of 26 and every 26-byte chunk
parses, erring otherwise; with no `nodes` key the decode yields `Pong`. -/
theorem C6_response_discrimination (dict args : DictMap) (idb tb : List Nat)
    (hy : dictLookup dict keyY = some (Bencode.ByteString strR))
    (hr : dictLookup dict keyR = some (Bencode.Dict args))
    (htok : dictLookup args keyToken = none)
    (hid : dictLookup args keyId = some (Bencode.ByteString idb))
    (hidlen : idb.length = NODE_ID_LEN)
    (ht : dictLookup dict keyT = some (Bencode.ByteString tb)) :
    (∀ ns, dictLookup args keyNodes = some (Bencode.ByteString ns) →
      ((∃ l, FullResponse.from_bencode (Bencode.Dict dict)
            = .ok ⟨Response.FoundNodes l, idb, txDecode tb⟩)
          ↔ (ns.length % NODE4_LEN = 0
              ∧ ∀ c ∈ chunks26 ns, isOkB (Node4Info.parse c) = true))
        ∧ ((ns.length % NODE4_LEN ≠ 0
              ∨ ∃ c ∈ chunks26 ns, isOkB (Node4Info.parse c) = false) →
            ∃ e, FullResponse.from_bencode (Bencode.Dict dict) = .err e))
    ∧ (dictLookup args keyNodes = none →
        FullResponse.from_bencode (Bencode.Dict dict)
          = .ok ⟨Response.Pong, idb, txDecode tb⟩) := by
  have hfin : ∀ resp, respFinish dict args resp = .ok ⟨resp, idb, txDecode tb⟩ := by
    intro resp
    simp [respFinish, lookup, hid, ht, Bencode.bytes, NodeId.from_bencode,
      NodeId.from_slice, hidlen, txId_from_bytes]
  constructor
  · intro ns hn
    have hnodesErr : ∀ e, Node4Info.parse_list ns = .error e →
        FullResponse.from_bencode (Bencode.Dict dict) = .err e := by
      intro e he
      simp [FullResponse.from_bencode, Bencode.dict, lookup, hy, hr, htok, hn,
        Bencode.bytes, he]
    have hnodesOk : ∀ nodes, Node4Info.parse_list ns = .ok nodes →
        FullResponse.from_bencode (Bencode.Dict dict)
          = .ok ⟨Response.FoundNodes nodes, idb, txDecode tb⟩ := by
      intro nodes hnd
      simp [FullResponse.from_bencode, Bencode.dict, lookup, hy, hr, htok, hn,
        Bencode.bytes, hnd, hfin]
    constructor
    · cases hpl : Node4Info.parse_list ns with
      | error e =>
        constructor
        · rintro ⟨l, hl⟩
          rw [hnodesErr e hpl] at hl
          cases hl
        · intro hcond
          obtain ⟨l, hok⟩ := (parse_list_ok_iff ns).2 hcond
          rw [hok] at hpl
          cases hpl
      | ok nodes =>
        constructor
        · intro _
          exact (parse_list_ok_iff ns).1 ⟨nodes, hpl⟩
        · intro _
          exact ⟨nodes, hnodesOk nodes hpl⟩
    · intro hbad
      have hnotok : ¬ ∃ l, Node4Info.parse_list ns = .ok l := by
        rw [parse_list_ok_iff]
        rintro ⟨hmod, hall⟩
        rcases hbad with hb | ⟨c, hc, hcf⟩
        · exact hb hmod
        · rw [hall c hc] at hcf
          cases hcf
      cases hpl : Node4Info.parse_list ns with
      | ok l => exact absurd ⟨l, hpl⟩ hnotok
      | error e => exact ⟨e, hnodesErr e hpl⟩
  · intro hnone
    simp [FullResponse.from_bencode, Bencode.dict, lookup, hy, hr, htok, hnone,
      Bencode.bytes, hfin]

/-- Witness for C6 at the concrete reply `dictC6`, whose `nodes` byte-string
is one valid 26-byte contact record. -/
theorem C6_response_witness :
    (∀ ns, dictLookup argsC6 keyNodes = some (Bencode.ByteString ns) →
      ((∃ l, FullResponse.from_bencode (Bencode.Dict dictC6)
            = .ok ⟨Response.FoundNodes l, List.replicate 20 2, txDecode [65, 66]⟩)
          ↔ (ns.length % NODE4_LEN = 0
              ∧ ∀ c ∈ chunks26 ns, isOkB (Node4Info.parse c) = true))
        ∧ ((ns.length % NODE4_LEN ≠ 0
              ∨ ∃ c ∈ chunks26 ns, isOkB (Node4Info.parse c) = false) →
            ∃ e, FullResponse.from_bencode (Bencode.Dict dictC6) = .err e))
    ∧ (dictLookup argsC6 keyNodes = none →
        FullResponse.from_bencode (Bencode.Dict dictC6)
          = .ok ⟨Response.Pong, List.replicate 20 2, txDecode [65, 66]⟩) :=
  C6_response_discrimination dictC6 argsC6 (List.replicate 20 2) [65, 66]
    rfl rfl rfl rfl (by decide) rfl

/-- C4: a split appends exactly one bucket; the new bucket receives, in scan
order, exactly the occupied slots of the old last bucket whose node bit at
the bucket's index equals the local id's bit there; those slots are cleared
and the survivors are compacted, leaving the old bucket dense. -/
theorem C4_spill_moves_matching_and_compacts (t : Table) (init : List Bucket) (L : Bucket)
    (hb : t.buckets = init ++ [L]) (hK : L.length = K) :
    t.spill.1.buckets.length = t.buckets.length + 1 ∧
    t.spill.1.buckets
      = (init ++ [L.filter (isStayer (t.id.bit init.length) init.length)
            ++ List.replicate
                (K - (L.filter (isStayer (t.id.bit init.length) init.length)).length)
                Slot.Empty])
        ++ [L.filter (isMover (t.id.bit init.length) init.length)
            ++ List.replicate
                (K - (L.filter (isMover (t.id.bit init.length) init.length)).length)
                Slot.Empty] ∧
    denseB (L.filter (isStayer (t.id.bit init.length) init.length)
        ++ List.replicate
            (K - (L.filter (isStayer (t.id.bit init.length) init.length)).length)
            Slot.Empty) = true := by
  have hsp := Table.spill_eq t init L hb hK
  refine ⟨?_, ?_, ?_⟩
  · rw [hsp]
    simp [hb]
  · rw [hsp]
  · exact denseB_of_shape _ _
      (fun x hx => stayer_not_empty _ _ x (List.mem_filter.1 hx).2)

/-- Witness for the C4 theorem on the concrete one-bucket table `tC4`, whose
bucket holds one stayer (`cY`) and one mover (`cX`) for bit 0. -/
theorem C4_spill_witness :
    tC4.spill.1.buckets.length = tC4.buckets.length + 1 ∧
    tC4.spill.1.buckets
      = ([] ++ [bC4.filter (isStayer (tC4.id.bit 0) 0)
            ++ List.replicate (K - (bC4.filter (isStayer (tC4.id.bit 0) 0)).length)
                Slot.Empty])
        ++ [bC4.filter (isMover (tC4.id.bit 0) 0)
            ++ List.replicate (K - (bC4.filter (isMover (tC4.id.bit 0) 0)).length)
                Slot.Empty] ∧
    denseB (bC4.filter (isStayer (tC4.id.bit 0) 0)
        ++ List.replicate (K - (bC4.filter (isStayer (tC4.id.bit 0) 0)).length)
            Slot.Empty) = true :=
  C4_spill_moves_matching_and_compacts tC4 [] bC4 rfl (by decide)

/-- C10: `allocate` never removes a node — every occupied slot value present
before the call is still present in some bucket afterwards — and when no
split is triggered (shared-prefix index below the bucket count, or the table
at maximum depth) `allocate` leaves the buckets entirely unchanged. -/
theorem C10_allocate_preserves_nodes (t : Table) (nid : NodeId)
    (hne : t.buckets ≠ []) (hK : ∀ b ∈ t.buckets, b.length = K) :
    (∀ (m : NodeId) (st : NodeState) (bkt : Bucket), bkt ∈ t.buckets →
        Slot.Node m st ∈ bkt →
        ∃ bkt', bkt' ∈ (t.allocate nid).1.buckets ∧ Slot.Node m st ∈ bkt') ∧
    (¬ (t.buckets.length ≤ Distance.count_zeros (Distance.between t.id nid) ∧
          t.buckets.length < MAX_BUCKETS) →
        (t.allocate nid).1 = t) := by
  have halloc : (t.allocate nid).1 = t ∨
      ((t.buckets.length ≤ Distance.count_zeros (Distance.between t.id nid) ∧
        t.buckets.length < MAX_BUCKETS) ∧ (t.allocate nid).1 = t.spill.1) := by
    simp only [Table.allocate]
    cases hv : (if Distance.count_zeros (Distance.between t.id nid) < t.buckets.length
        then Bucket.locate
          (t.buckets.getD (Distance.count_zeros (Distance.between t.id nid)) []) nid
        else none) with
    | some i => left; rfl
    | none =>
      by_cases hc : t.buckets.length ≤ Distance.count_zeros (Distance.between t.id nid) ∧
          t.buckets.length < MAX_BUCKETS
      · right
        refine ⟨hc, ?_⟩
        rw [if_pos (show Distance.count_zeros (Distance.between t.id nid)
          ≥ t.buckets.length ∧ t.buckets.length < MAX_BUCKETS from ⟨hc.1, hc.2⟩)]
      · left
        rw [if_neg (fun hcon => hc ⟨hcon.1, hcon.2⟩)]
  constructor
  · rcases halloc with heq | ⟨_, heq⟩
    · intro m st bkt hbkt hm
      exact ⟨bkt, by rw [heq]; exact hbkt, hm⟩
    · obtain ⟨init, L, hb⟩ : ∃ init L, t.buckets = init ++ [L] :=
        ⟨t.buckets.dropLast, t.buckets.getLast hne,
          (List.dropLast_append_getLast hne).symm⟩
      have hKL : L.length = K := hK L (by
        rw [hb]
        exact List.mem_append_right init (List.mem_singleton_self L))
      have hsp := Table.spill_eq t init L hb hKL
      have hbuckets : (t.allocate nid).1.buckets
          = (init ++ [L.filter (isStayer (t.id.bit init.length) init.length)
                ++ List.replicate
                    (K - (L.filter (isStayer (t.id.bit init.length) init.length)).length)
                    Slot.Empty])
            ++ [L.filter (isMover (t.id.bit init.length) init.length)
                ++ List.replicate
                    (K - (L.filter (isMover (t.id.bit init.length) init.length)).length)
                    Slot.Empty] := by
        rw [heq, hsp]
      intro m st bkt hbkt hm
      rw [hb] at hbkt
      rcases List.mem_append.1 hbkt with hi | hl
      · refine ⟨bkt, ?_, hm⟩
        rw [hbuckets]
        exact List.mem_append_left _ (List.mem_append_left _ hi)
      · have hbl : bkt = L := by simpa using hl
        rw [hbl] at hm
        by_cases hmv : t.id.bit init.length = m.bit init.length
        · refine ⟨L.filter (isMover (t.id.bit init.length) init.length)
            ++ List.replicate
                (K - (L.filter (isMover (t.id.bit init.length) init.length)).length)
                Slot.Empty, ?_, ?_⟩
          · rw [hbuckets]
            exact List.mem_append_right _ (by simp)
          · exact List.mem_append_left _
              (List.mem_filter.2 ⟨hm, by simp [isMover, hmv]⟩)
        · refine ⟨L.filter (isStayer (t.id.bit init.length) init.length)
            ++ List.replicate
                (K - (L.filter (isStayer (t.id.bit init.length) init.length)).length)
                Slot.Empty, ?_, ?_⟩
          · rw [hbuckets]
            exact List.mem_append_left _ (List.mem_append_right _ (by simp))
          · exact List.mem_append_left _
              (List.mem_filter.2 ⟨hm, by simp [isStayer, hmv]⟩)
  · intro hno
    rcases halloc with heq | ⟨hc, _⟩
    · exact heq
    · exact absurd hc hno

/-- Witness for the C10 theorem at the concrete table `tC4` and id `cFar 1`
(whose shared-prefix index 28 forces a split). -/
theorem C10_witness :
    (∀ (m : NodeId) (st : NodeState) (bkt : Bucket), bkt ∈ tC4.buckets →
        Slot.Node m st ∈ bkt →
        ∃ bkt', bkt' ∈ (tC4.allocate (cFar 1)).1.buckets ∧ Slot.Node m st ∈ bkt') ∧
    (¬ (tC4.buckets.length ≤ Distance.count_zeros (Distance.between tC4.id (cFar 1)) ∧
          tC4.buckets.length < MAX_BUCKETS) →
        (tC4.allocate (cFar 1)).1 = tC4) :=
  C10_allocate_preserves_nodes tC4 (cFar 1) (by decide) (by decide)

end Dht
